import Mathlib

/-!
# Verification of the checkpointed batch-workflow engine

A shallow embedding, in Lean, of the core of the `uniques-campaign-runner`
repository: the CSV checkpoint store (`src/utils/csv.js`), the tabular
data model and its column projection (`src/workflow/context.js`), the
resumable batch loop and the pipeline steps (`src/workflow/workflow.js`).
JavaScript strings are modelled as `String` (or `List Char` where the CSV
grammar needs character-level reasoning), JavaScript numbers as `Int`/`Nat`,
thrown `WorkflowError`s as `Except` values, and the filesystem / ledger /
pinning side effects as explicit event traces.
-/

namespace CampaignRunner

/-- A JavaScript value as it occurs in table cells of this program: a string
(values read from CSV, secrets, addresses, CIDs), a number (instance ids,
batch counters), or `undefined` (reading a missing column or past the end of
a row). -/
inductive JsVal where
  | str (s : String)
  | num (n : Int)
  | undef
deriving DecidableEq, Repr

/-- JavaScript truthiness, restricted to the values above: `''`, `0` and
`undefined` are falsy, everything else truthy.  Used for the source's
`if (!x)` guards on cells. -/
def JsVal.truthy : JsVal → Bool
  | .str s => !(s = "")
  | .num n => !(n = 0)
  | .undef => false

/-- A column projected out of (or written back into) the table:
`{ title, records }` with one cell per table row
(`getColumns` in `src/utils/csv.js`). -/
structure Column where
  title : String
  records : List JsVal
deriving DecidableEq, Repr

/-- The in-memory table of `context.data`: `header` (list of column titles)
and `records` (one list of cells per row). -/
structure Table where
  header : List String
  records : List (List JsVal)
deriving DecidableEq, Repr

/-- `getColumnIndex(header, columnTitles)` from `src/utils/csv.js`: for each
title, `null` (here `none`) if the title is falsy (the empty string) or not
found by `indexOf`, otherwise its first index in the header. -/
def getColumnIndex (header : List String) (columnTitles : List String) :
    List (Option Nat) :=
  columnTitles.map fun col => if col = "" then none else header.indexOf? col

/-- `getColumns(columnTitles, header, records)` from `src/utils/csv.js`:
one `Column` per requested title.  The source pushes
`record[columnIdxs[i]]` for every record; indexing a JavaScript array with
`null` or past its end yields `undefined`, modelled by `.undef`. -/
def getColumns (columnTitles header : List String)
    (records : List (List JsVal)) : List Column :=
  (columnTitles.zip (getColumnIndex header columnTitles)).map fun ti =>
    { title := ti.1
      records := records.map fun record =>
        match ti.2 with
        | none => .undef
        | some i => record.getD i .undef }

/-- The projection operation as §3 and §4.2 of the specification word it:
`getColumns(titles) -> sequence<Column|null>`, where a title absent from the
header yields a `null` placeholder (here `none`) in that position.  Written
from the specification to compare against the source's `getColumns`. -/
def getColumnsSpec (columnTitles header : List String)
    (records : List (List JsVal)) : List (Option Column) :=
  columnTitles.map fun t =>
    match header.indexOf? t with
    | none => none
    | some i =>
      some { title := t, records := records.map fun record => record.getD i .undef }

/-- JavaScript array element assignment `arr[i] = v`: in-bounds assignment
replaces, assignment at the length appends, assignment past the length pads
the gap with holes (read back as `undefined`). -/
def jsArraySet (l : List JsVal) (i : Nat) (v : JsVal) : List JsVal :=
  if i < l.length then l.set i v
  else l ++ List.replicate (i - l.length) .undef ++ [v]

/-- The `WorkflowError` message thrown by `data.setColumns` on a length
mismatch (the ColumnLengthMismatch error of the specification). -/
def columnLengthMismatchMsg (title : String) : String :=
  "Can not add the column " ++ title ++
    " to records. The number of records in the column is not equal to the number of data records"

/-- The first phase of `data.setColumns` (`src/workflow/context.js`): the
`columns.forEach` loop.  For each column in order it first throws on a
length mismatch, then resolves the column's index in the *current* header,
appending the title to the header when absent.  A throw aborts the loop,
leaving the header as mutated so far: the error value carries that header. -/
def resolveColumnIdxs (nRecords : Nat) (header : List String) :
    List Column → Except (String × List String) (List String × List Nat)
  | [] => .ok (header, [])
  | column :: rest =>
    if column.records.length ≠ nRecords then
      .error (columnLengthMismatchMsg column.title, header)
    else
      match header.indexOf? column.title with
      | some i =>
        match resolveColumnIdxs nRecords header rest with
        | .ok (h, idxs) => .ok (h, i :: idxs)
        | .error e => .error e
      | none =>
        match resolveColumnIdxs nRecords (header ++ [column.title]) rest with
        | .ok (h, idxs) => .ok (h, header.length :: idxs)
        | .error e => .error e

/-- The second phase of `data.setColumns`: the nested `for` loops writing
`columns[c].records[r]` into `records[r][columnIdxs[c]]` for every row. -/
def writeColumns (records : List (List JsVal)) (idxs : List Nat)
    (columns : List Column) : List (List JsVal) :=
  (List.range records.length).map fun r =>
    (idxs.zip columns).foldl
      (fun row ic => jsArraySet row ic.1 (ic.2.records.getD r .undef))
      (records.getD r [])

/-- `data.setColumns(columns)` from `src/workflow/context.js`.  On a length
mismatch the thrown error carries the table as the in-place mutation left
it: the partially-extended header and the untouched records. -/
def setColumns (t : Table) (columns : List Column) :
    Except (String × Table) Table :=
  match resolveColumnIdxs t.records.length t.header columns with
  | .error (msg, h) => .error (msg, { header := h, records := t.records })
  | .ok (h, idxs) =>
    .ok { header := h, records := writeColumns t.records idxs columns }

/-- The record-range computation at the end of `data.load`
(`src/workflow/context.js`): `none` models a missing or non-numeric
configuration value (`parseInt` returning `NaN`, which is falsy), `some v`
a numeric one.  `parseInt(offset) ? parseInt(offset) - 1 : 0` maps a
nonzero numeric offset `o` to `o - 1` and everything else to `0`;
`parseInt(count) || records.length - instanceOffset + 1` maps zero or
missing counts to the fallback.  Returns
`(startRecordNo, endRecordNo)`. -/
def effectiveRange (offset count : Option Int) (nRecords : Nat) : Int × Int :=
  let instanceOffset : Int :=
    match offset with
    | some o => if o ≠ 0 then o - 1 else 0
    | none => 0
  let instanceCount : Int :=
    match count with
    | some c => if c ≠ 0 then c else (nRecords : Int) - instanceOffset + 1
    | none => (nRecords : Int) - instanceOffset + 1
  (instanceOffset, min (instanceOffset + instanceCount) (nRecords : Int))

/-- The result of one run of the batch `while` loop: the batches whose
external call was issued (batch index, `batchStartRecordNo`,
`batchEndRecordNo`), the final value of the `lastBatch` counter, the
sequence of counter values persisted by `context.batch.checkpoint()`, and
whether the loop ran to completion (`false` when a batched call threw). -/
structure BatchRun where
  issued : List (Nat × Nat × Nat)
  last : Nat
  persisted : List Nat
  ok : Bool
deriving DecidableEq, Repr

/-- The resumable batch loop of `src/workflow/workflow.js`, shared verbatim
by `mintInstancesInBatch` (lines 179-199), `setInstanceMetadata`
(lines 337-355) and `sendInitialFunds` (lines 389-407):
`while (startRecordNo + lastBatch * batchSize < endRecordNo)` issue the
batched external call over
`[startRecordNo + lastBatch*batchSize, min(startRecordNo + (lastBatch+1)*batchSize, endRecordNo))`,
then increment `lastBatch` and, unless dry-run, persist it.  `callOk b`
abstracts whether the awaited external call for batch index `b` returns
(`true`) or throws (`false`); a throw propagates out of the loop before the
increment.  `batchSize` is positive (`parseInt(batchSize) || 100`), which
also makes the loop terminate. -/
def batchLoop (callOk : Nat → Bool) (dryRun : Bool)
    (startRecordNo endRecordNo batchSize : Nat) (hB : 0 < batchSize)
    (lastBatch : Nat) : BatchRun :=
  if h : startRecordNo + lastBatch * batchSize < endRecordNo then
    let batchStart := startRecordNo + lastBatch * batchSize
    let batchEnd := min (startRecordNo + (lastBatch + 1) * batchSize) endRecordNo
    if callOk lastBatch then
      let r := batchLoop callOk dryRun startRecordNo endRecordNo batchSize hB
        (lastBatch + 1)
      { issued := (lastBatch, batchStart, batchEnd) :: r.issued
        last := r.last
        persisted := if dryRun then r.persisted else (lastBatch + 1) :: r.persisted
        ok := r.ok }
    else
      { issued := [(lastBatch, batchStart, batchEnd)]
        last := lastBatch
        persisted := []
        ok := false }
  else
    { issued := [], last := lastBatch, persisted := [], ok := true }
termination_by endRecordNo - (startRecordNo + lastBatch * batchSize)
decreasing_by simp only [Nat.succ_mul]; omega

/-- The column title constants of `src/workflow/context.js`
(`columnTitles.instanceId`). -/
def instanceIdTitle : String := "instanceId"

/-- One iteration of the instance-id loop of `mintInstancesInBatch`
(lines 204-212): `if (i > records.length) push('')`, then
`if (startRecordNo <= i < endRecordNo) records[i] = currentInstanceId++`.
The state is the column cells built so far and `currentInstanceId`. -/
def instanceIdStep (startRecordNo endRecordNo : Nat) (st : List JsVal × Nat)
    (i : Nat) : List JsVal × Nat :=
  let recs := if i > st.1.length then st.1 ++ [.str ""] else st.1
  if startRecordNo ≤ i ∧ i < endRecordNo then
    (jsArraySet recs i (.num st.2), st.2 + 1)
  else (recs, st.2)

/-- The instance-id column built after all mint batches complete
(`mintInstancesInBatch` lines 201-212): the loop runs `i` from `0` to
`records.length` inclusive, starting from an empty cell list and
`startInstanceId = 0`. -/
def buildInstanceIdColumn (nRecords startRecordNo endRecordNo : Nat) : Column :=
  { title := instanceIdTitle
    records :=
      ((List.range (nRecords + 1)).foldl
        (instanceIdStep startRecordNo endRecordNo) ([], 0)).1 }

/-- The tail of `mintInstancesInBatch` (lines 201-214): build the
instance-id column, apply it through `data.setColumns`, then (unless
dry-run) checkpoint the table.  The returned flag records whether
`data.checkpoint()` was invoked. -/
def assignInstanceIds (t : Table) (startRecordNo endRecordNo : Nat)
    (dryRun : Bool) : Except (String × Table) (Table × Bool) :=
  match setColumns t
      [buildInstanceIdColumn t.records.length startRecordNo endRecordNo] with
  | .error e => .error e
  | .ok t' => .ok (t', !dryRun)

/-- An externally visible effect of a run: filesystem operations
(`fs.mkdirSync`, `fs.copyFileSync`, `fs.readFileSync`, `fs.writeFileSync`,
`fs.unlinkSync`/`fs.rmdirSync`), read-only ledger queries (`api.query...`),
mutating ledger submissions (`signAndSendTx`), pinning uploads
(`pinataClient.pinFile`), and interactive prompts (`inqAsk`). -/
inductive Effect where
  | mkdir (path : String)
  | copy (src dst : String)
  | fileRead (path : String)
  | fileWrite (path : String)
  | fileDelete (path : String)
  | chainQuery
  | chainTx (name : String)
  | pinFile
  | prompt
deriving DecidableEq, Repr

/-- An effect is an external mutating call when it submits a signed
transaction to the ledger or uploads to the pinning service. -/
def Effect.isMutatingExternal : Effect → Bool
  | .chainTx _ => true
  | .pinFile => true
  | _ => false

/-- The checkpoint file paths of `src/workflow/context.js`
(`path.resolve('./.checkpoint', ...)`). -/
def cpFolder : String := "./.checkpoint"

/-- The class record checkpoint file (`cpfiles.class`). -/
def cpClassFile : String := "./.checkpoint/.class.cp"

/-- The data table checkpoint file (`cpfiles.data`). -/
def cpDataFile : String := "./.checkpoint/.data.cp"

/-- The batch record checkpoint file (`cpfiles.batch`). -/
def cpBatchFile : String := "./.checkpoint/.batch.cp"

/-- An effect writes a checkpoint file when it is a `writeCsvSync` to, or a
copy onto, one of the three checkpoint paths. -/
def Effect.isCheckpointWrite : Effect → Bool
  | .fileWrite p => p = cpClassFile || p = cpDataFile || p = cpBatchFile
  | .copy _ dst => dst = cpClassFile || dst = cpDataFile || dst = cpBatchFile
  | _ => false

/-- An effect modifies the file at `p` when it writes it, deletes it, or
copies onto it. -/
def Effect.modifies (p : String) : Effect → Bool
  | .fileWrite q => q = p
  | .fileDelete q => q = p
  | .copy _ dst => dst = p
  | _ => false

/-- The configuration fields of the workflow that the run's effect trace
depends on. -/
structure Cfg where
  csvFile : String
  outputCsvFile : String
  initialFund : Option Nat
deriving DecidableEq, Repr

/-- Which checkpoint files exist on disk when the run starts. -/
structure CpState where
  folderExists : Bool
  classCpExists : Bool
  batchCpExists : Bool
  dataCpExists : Bool
deriving DecidableEq, Repr

/-- `getCheckpointRecords(file)` from `src/workflow/context.js`: reads the
file when it exists, otherwise touches nothing. -/
def getCheckpointRecordsEvents (present : Bool) (file : String) : List Effect :=
  if present then [.fileRead file] else []

/-- The effects of `context.load` (`src/workflow/context.js`): create the
checkpoint folder when missing, load the class and batch records, then
`data.load`, which copies the configured source CSV into the data
checkpoint when no data checkpoint exists yet and reads the checkpoint
copy.  (`connect` and `createPinataClient` only open connections and are
not filesystem or mutating effects.) -/
def contextLoadEvents (cfg : Cfg) (st : CpState) : List Effect :=
  (if st.folderExists then [] else [.mkdir cpFolder])
    ++ getCheckpointRecordsEvents st.classCpExists cpClassFile
    ++ getCheckpointRecordsEvents st.batchCpExists cpBatchFile
    ++ (if st.dataCpExists then [] else [.copy cfg.csvFile cpDataFile])
    ++ [.fileRead cpDataFile]

/-- The initial-fund check of `verifyWorkflow` (`src/workflow/workflow.js`
lines 417-425): `if (initialFund)` — so only a truthy (nonzero, present)
amount is checked at all — throw when
`existentialDeposit.gt(new BN(initialFund))`.  Returns `true` when the
check passes.  `none` models a missing `instance.initialFund`. -/
def verifyFundOk (initialFund : Option Nat) (existentialDeposit : Nat) : Bool :=
  match initialFund with
  | some n => if n ≠ 0 then !(n < existentialDeposit) else true
  | none => true

/-- The control-flow choices a full successful pass can make inside its
steps (branches on checkpointed state, prompt answers, batch counts) and
the non-checkpoint paths it writes while pinning (the generated `.meta`
documents written next to each image by `generateMetadata`). -/
structure StepChoices where
  classNeedsWork : Bool
  classOnChain : Bool
  classMetaMissing : Bool
  classMetaConfigured : Bool
  classVideoConfigured : Bool
  classMetaPath : String
  secretsUpdated : Bool
  mintBatches : Nat
  imagesConfigured : Bool
  pinnedMetaPaths : List String
  metaBatches : Nat
  fundBatches : Nat
deriving DecidableEq, Repr

/-- The effects of `createClass` (`src/workflow/workflow.js` lines 26-66) on
a non-aborting pass.  `context.dryRun` is never `true` in the source —
`enableDryRun` is commented out of `runWorkflow` — so the
`if (!dryRun)` guards around checkpoints always write. -/
def createClassEvents (c : StepChoices) : List Effect :=
  if c.classNeedsWork then
    [.chainQuery]
      ++ (if c.classOnChain then [.prompt] else [.chainTx "uniques.create"])
      ++ [.fileWrite cpClassFile]
  else []

/-- The effects of `setClassMetadata` (lines 68-108) on a non-aborting
pass.  When metadata is generated, `generateAndSetClassMetadata` pins the
image (and the video when configured), writes the generated `.meta`
document next to the image, pins it, submits the metadata transaction, and
checkpoints the class record. -/
def setClassMetadataEvents (c : StepChoices) : List Effect :=
  if c.classMetaMissing then
    if c.classMetaConfigured then
      [.pinFile] ++ (if c.classVideoConfigured then [.pinFile] else [])
        ++ [.fileWrite c.classMetaPath, .pinFile,
            .chainTx "uniques.setClassMetadata", .fileWrite cpClassFile]
    else [.prompt]
  else []

/-- The effects of `generateGiftSecrets` (lines 110-147): secret generation
is local; the table is checkpointed once when anything changed. -/
def generateGiftSecretsEvents (c : StepChoices) : List Effect :=
  if c.secretsUpdated then [.fileWrite cpDataFile] else []

/-- The effects of `mintInstancesInBatch` (lines 149-215): per batch a
mint submission then a batch-record checkpoint, and after all batches a
data checkpoint for the instance-id column. -/
def mintInstancesEvents (c : StepChoices) : List Effect :=
  ((List.range c.mintBatches).map fun _ =>
      [Effect.chainTx "uniques.mint", Effect.fileWrite cpBatchFile]).flatten
    ++ [.fileWrite cpDataFile]

/-- The effects of `pinAndSetImageCid` (lines 225-280): skipped when no
instance metadata is configured; otherwise per pinned row an image upload,
the generated `.meta` document write, and a metadata upload, then one data
checkpoint when anything changed. -/
def pinAndSetImageCidEvents (c : StepChoices) : List Effect :=
  if c.imagesConfigured then
    (c.pinnedMetaPaths.map fun p =>
        [Effect.pinFile, Effect.fileWrite p, Effect.pinFile]).flatten
      ++ (if c.pinnedMetaPaths.isEmpty then [] else [.fileWrite cpDataFile])
  else []

/-- The effects of `setInstanceMetadata` (lines 282-356): skipped without
instance metadata; otherwise per batch a metadata submission then a
batch-record checkpoint. -/
def setInstanceMetadataEvents (c : StepChoices) : List Effect :=
  if c.imagesConfigured then
    ((List.range c.metaBatches).map fun _ =>
        [Effect.chainTx "uniques.setMetadata", Effect.fileWrite cpBatchFile]).flatten
  else []

/-- The effects of `sendInitialFunds` (lines 358-408): skipped when no
(or a zero) initial fund is configured; otherwise per batch a transfer
submission then a batch-record checkpoint. -/
def sendInitialFundsEvents (cfg : Cfg) (c : StepChoices) : List Effect :=
  if (match cfg.initialFund with | some n => !(n = 0) | none => false) then
    ((List.range c.fundBatches).map fun _ =>
        [Effect.chainTx "balances.transfer", Effect.fileWrite cpBatchFile]).flatten
  else []

/-- The effects of the tail of `runWorkflow` (lines 517-525):
`data.writeFinalResult` copies the data checkpoint to the configured output
path, then `context.clean` deletes the three checkpoint files and the
checkpoint folder. -/
def finalizeEvents (cfg : Cfg) : List Effect :=
  [.copy cpDataFile cfg.outputCsvFile,
   .fileDelete cpBatchFile, .fileDelete cpDataFile, .fileDelete cpClassFile,
   .fileDelete cpFolder]

/-- The effect trace of `runWorkflow` (`src/workflow/workflow.js`
lines 464-526): load the context, run the preflight `verifyWorkflow`
(whose outcome `verifyOk` combines the fund check with the image-existence
checks), and then — when verification throws, abort; when `dryRunMode` is
set, return immediately; otherwise run the seven steps and finalize.
(`checkPreviousCheckpoints`, invoked before `loadContext`, is not part of
the sources; it performs no effect in this model.) -/
def runWorkflowEvents (cfg : Cfg) (st : CpState) (c : StepChoices)
    (dryRunMode : Bool) (verifyOk : Bool) : List Effect :=
  contextLoadEvents cfg st
    ++ (if !verifyOk then []
        else if dryRunMode then []
        else
          createClassEvents c ++ setClassMetadataEvents c
            ++ generateGiftSecretsEvents c ++ mintInstancesEvents c
            ++ pinAndSetImageCidEvents c ++ setInstanceMetadataEvents c
            ++ sendInitialFundsEvents cfg c ++ finalizeEvents cfg)

/-- `runWorkflow` with the verification outcome computed from the fund
check (and `imagesOk`, abstracting the per-row image-file existence
checks). -/
def runWorkflowEventsFull (cfg : Cfg) (st : CpState) (c : StepChoices)
    (dryRunMode : Bool) (existentialDeposit : Nat) (imagesOk : Bool) :
    List Effect :=
  runWorkflowEvents cfg st c dryRunMode
    (verifyFundOk cfg.initialFund existentialDeposit && imagesOk)

/-- A CSV field at character granularity. -/
abbrev Field := List Char

/-- The quoting test of `normalizeCsvFields` (`src/utils/csv.js`
lines 93-108): a field needs quoting when it contains the separator, a
line break, or a quote. -/
def fieldNeedsQuoting (f : Field) : Bool :=
  f.any fun c => c = ',' || c = '\n' || c = '"'

/-- `field.replaceAll('"', '""')`: double every quote in the field. -/
def escapeQuotes : Field → Field
  | [] => []
  | c :: cs =>
    if c = '"' then '"' :: '"' :: escapeQuotes cs else c :: escapeQuotes cs

/-- One field of `normalizeCsvFields`: wrap in quotes, with inner quotes
doubled, exactly when the field contains a separator, line break or
quote; otherwise write the field verbatim — the source writes it unchanged. -/
def normalizeCsvField (f : Field) : Field :=
  if fieldNeedsQuoting f then '"' :: (escapeQuotes f ++ ['"']) else f

/-- `Array.prototype.join(sep)` at the character level. -/
def joinWith (sep : Char) : List Field → Field
  | [] => []
  | [f] => f
  | f :: fs => f ++ sep :: joinWith sep fs

/-- A record row as `writeCsvSync` serializes it: every field normalized,
then joined with the separator (each row array's `toString`). -/
def serializeRow (row : List Field) : Field :=
  joinWith ',' (row.map normalizeCsvField)

/-- `writeCsvSync(file, headers, records)` (`src/utils/csv.js`
lines 109-115) as the character sequence written:
`[headers, ...records.map(normalizeCsvFields)].join('\n')`, each row
joined with `,`.  Note the header row is *not* normalized: its fields are
written verbatim even when they contain separators, quotes or line
breaks. -/
def writeCsv (header : List Field) (records : List (List Field)) : Field :=
  joinWith '\n' ((header :: records.map fun r => r.map normalizeCsvField).map
    (joinWith ','))

/-- The state of the CSV reading automaton modelling the `csv-parse`
dependency with the source's options (defaults plus `skip_empty_lines`):
at the start of a record (where an empty line is skipped), at the start of
a later field, inside an unquoted field, inside a quoted field, or just
after a quote inside a quoted field. -/
inductive CsvMode where
  | start
  | field
  | unquoted
  | quoted
  | closed
deriving DecidableEq, Repr

/-- The CSV reading automaton: one character per step, building the current
field, the current record's earlier fields, and the finished records.
`none` models the parse errors `csv-parse` throws with its default options:
a quote opening inside an unquoted field, data after a closing quote, and
an unterminated quoted field. -/
def runCsv : List Char → CsvMode → Field → List Field →
    List (List Field) → Option (List (List Field))
  | [], mode, cur, fields, rows =>
    match mode with
    | .start => some rows
    | .field => some (rows ++ [fields ++ [cur]])
    | .unquoted => some (rows ++ [fields ++ [cur]])
    | .quoted => none
    | .closed => some (rows ++ [fields ++ [cur]])
  | c :: s, mode, cur, fields, rows =>
    match mode with
    | .start =>
      if c = '\n' then runCsv s .start [] [] rows
      else if c = ',' then runCsv s .field [] (fields ++ [cur]) rows
      else if c = '"' then runCsv s .quoted cur fields rows
      else runCsv s .unquoted (cur ++ [c]) fields rows
    | .field =>
      if c = '\n' then runCsv s .start [] [] (rows ++ [fields ++ [cur]])
      else if c = ',' then runCsv s .field [] (fields ++ [cur]) rows
      else if c = '"' then runCsv s .quoted cur fields rows
      else runCsv s .unquoted (cur ++ [c]) fields rows
    | .unquoted =>
      if c = '\n' then runCsv s .start [] [] (rows ++ [fields ++ [cur]])
      else if c = ',' then runCsv s .field [] (fields ++ [cur]) rows
      else if c = '"' then none
      else runCsv s .unquoted (cur ++ [c]) fields rows
    | .quoted =>
      if c = '"' then runCsv s .closed cur fields rows
      else runCsv s .quoted (cur ++ [c]) fields rows
    | .closed =>
      if c = '"' then runCsv s .quoted (cur ++ ['"']) fields rows
      else if c = ',' then runCsv s .field [] (fields ++ [cur]) rows
      else if c = '\n' then runCsv s .start [] [] (rows ++ [fields ++ [cur]])
      else none

/-- `parse` with `skip_empty_lines`: run the automaton and
then enforce `csv-parse`'s default record-length consistency check — every
record must have as many fields as the first one, otherwise the parse
throws. -/
def parseCsv (s : List Char) : Option (List (List Field)) :=
  (runCsv s .start [] [] []).bind fun rows =>
    match rows with
    | [] => some []
    | r0 :: rest =>
      if rest.all fun r => r.length = r0.length then some (r0 :: rest)
      else none

/-- `readCsvSync(file)` (`src/utils/csv.js` lines 78-91) with
`hasHeader = true`: parse, then split the first record off as the
header. -/
def readCsv (s : List Char) : Option (List Field × List (List Field)) :=
  (parseCsv s).map fun records =>
    match records with
    | [] => ([], [])
    | h :: rest => (h, rest)

/-- A character that the CSV writer's header path may safely emit verbatim:
not the separator, not a quote, and not a line break (`'\n'`, and also
`'\r'`, which `csv-parse` would otherwise auto-detect as the record
delimiter). -/
def plainChar (c : Char) : Bool :=
  !(c = ',') && !(c = '"') && !(c = '\n') && !(c = '\r')

/-- The paths a trace writes: targets of `writeCsvSync`/`writeFileSync`,
deletions, and copy destinations. -/
def writtenPaths (events : List Effect) : List String :=
  events.filterMap fun ev =>
    match ev with
    | .fileWrite p => some p
    | .fileDelete p => some p
    | .copy _ dst => some dst
    | _ => none

/-! ## Theorems -/

theorem resolveColumnIdxs_error_of_mismatch (nRecords : Nat)
    (header : List String) (columns : List Column)
    (hmm : ∃ c ∈ columns, c.records.length ≠ nRecords) :
    ∃ msg ext, resolveColumnIdxs nRecords header columns =
      .error (msg, header ++ ext) := by
  induction columns generalizing header with
  | nil => obtain ⟨c, hc, _⟩ := hmm; simp at hc
  | cons col rest ih =>
    by_cases hlen : col.records.length ≠ nRecords
    · exact ⟨columnLengthMismatchMsg col.title, [], by
        simp [resolveColumnIdxs, hlen]⟩
    · have hrest : ∃ c ∈ rest, c.records.length ≠ nRecords := by
        obtain ⟨c, hc, hne⟩ := hmm
        rcases List.mem_cons.mp hc with rfl | hmem
        · exact absurd hne hlen
        · exact ⟨c, hmem, hne⟩
      push_neg at hlen
      rcases hidx : header.indexOf? col.title with _ | i
      · obtain ⟨msg, ext, hrec⟩ := ih (header ++ [col.title]) hrest
        exact ⟨msg, [col.title] ++ ext, by
          simp [resolveColumnIdxs, hlen, hidx, hrec]⟩
      · obtain ⟨msg, ext, hrec⟩ := ih header hrest
        exact ⟨msg, ext, by simp [resolveColumnIdxs, hlen, hidx, hrec]⟩

/-- Claim C3 (amended): when some column's value count differs from the
table's row count, `setColumns` fails with the ColumnLengthMismatch error
and no column's values are applied — the rows are left completely
unmodified — but the header is *not* rolled back: titles allocated for
columns preceding the failing one remain appended to it. -/
theorem C3_setColumns_mismatch_rows_untouched (t : Table)
    (columns : List Column)
    (hmm : ∃ c ∈ columns, c.records.length ≠ t.records.length) :
    ∃ msg ext, setColumns t columns =
      .error (msg, { header := t.header ++ ext, records := t.records }) := by
  obtain ⟨msg, ext, hrec⟩ :=
    resolveColumnIdxs_error_of_mismatch t.records.length t.header columns hmm
  exact ⟨msg, ext, by simp [setColumns, hrec]⟩

theorem C3_setColumns_mismatch_witness :
    setColumns ⟨["a"], [[.str "x"]]⟩ [⟨"c", [.str "v", .str "w"]⟩] =
      .error (columnLengthMismatchMsg "c",
        { header := ["a"], records := [[.str "x"]] }) := by
  obtain ⟨msg, ext, he⟩ := C3_setColumns_mismatch_rows_untouched
    ⟨["a"], [[.str "x"]]⟩ [⟨"c", [.str "v", .str "w"]⟩]
    ⟨⟨"c", [.str "v", .str "w"]⟩, by simp, by simp⟩
  exact rfl

/-- Counterexample to claim C3 as stated: with one fresh column of the right
length followed by one of the wrong length, `setColumns` throws the
ColumnLengthMismatch error but the table is *not* left completely
unmodified — the first column's title has already been appended to the
header. -/
theorem C3_counterexample :
    setColumns ⟨["a"], [[.str "x"]]⟩ [⟨"b", [.str "v"]⟩, ⟨"c", []⟩] =
      .error (columnLengthMismatchMsg "c",
        { header := ["a", "b"], records := [[.str "x"]] }) ∧
    ({ header := ["a", "b"], records := [[.str "x"]] } : Table) ≠
      { header := ["a"], records := [[.str "x"]] } := by
  refine ⟨rfl, by decide⟩

/-- Claim C4 (amended): `getColumns` is total — it never raises — and
returns exactly one `Column` per requested title; but a title absent from
the header does *not* yield a `null` placeholder at its position: it
yields a `Column` of that title whose every cell is `undefined`. -/
theorem C4_getColumns_total_absent_title (titles header : List String)
    (records : List (List JsVal)) :
    (getColumns titles header records).length = titles.length ∧
    ∀ i : Nat, ∀ hi : i < titles.length, titles.get ⟨i, hi⟩ ∉ header →
      (getColumns titles header records).getD i ⟨"", []⟩ =
        { title := titles.get ⟨i, hi⟩, records := records.map fun _ => .undef } := by
  have hlen : (getColumnIndex header titles).length = titles.length := by
    simp [getColumnIndex]
  constructor
  · simp [getColumns, hlen]
  · intro i hi habs
    have hidx : (getColumnIndex header titles).get ⟨i, by omega⟩ = none := by
      simp only [getColumnIndex, List.get_eq_getElem, List.getElem_map]
      by_cases he : titles[i] = ""
      · simp [he]
      · simp only [he, if_false]
        exact List.indexOf?_eq_none_iff.mpr fun x hx =>
          by simpa using fun h => habs (by simpa [h] using hx)
    rw [List.getD_eq_getElem _ _ (by simp [getColumns]; omega)]
    simp only [getColumns, List.getElem_map, List.getElem_zip]
    have : (getColumnIndex header titles)[i] = none := by
      simpa using hidx
    simp [this]

theorem C4_getColumns_witness :
    (getColumns ["b"] ["a"] [[.str "x"]]).length = 1 ∧
    (getColumns ["b"] ["a"] [[.str "x"]]).getD 0 ⟨"", []⟩ =
      { title := "b", records := [.undef] } := by
  have h := C4_getColumns_total_absent_title ["b"] ["a"] [[.str "x"]]
  exact ⟨h.1, by simpa using h.2 0 (by decide) (by decide)⟩

/-- Counterexample to claim C4 as stated: projecting the absent title `"b"`
does not put a `null` placeholder at its position (as `getColumnsSpec`,
written from the specification, does): the source returns a `Column`
object with `undefined` cells there. -/
theorem C4_counterexample :
    (getColumns ["b"] ["a"] [[.str "x"]]).map Option.some ≠
      getColumnsSpec ["b"] ["a"] [[.str "x"]] := by
  decide

/-- Claim C7 (amended): after `data.load`, `endRecordNo ≤ rows.length`
always holds, and `0 ≤ startRecordNo ≤ endRecordNo` holds provided the
configured offset lies between `0` and `rows.length + 1` and the
configured count is nonnegative; a negative count (or an offset past the
end of the table) makes `startRecordNo > endRecordNo`.  Both bounds are
computed once at load time (they are outputs of this single computation
and no other source location assigns them). -/
theorem C7_effectiveRange_bounds (offset count : Option Int) (nRecords : Nat)
    (hoff : ∀ o, offset = some o → 0 ≤ o ∧ o ≤ (nRecords : Int) + 1)
    (hcnt : ∀ c, count = some c → 0 ≤ c) :
    0 ≤ (effectiveRange offset count nRecords).1 ∧
    (effectiveRange offset count nRecords).1 ≤
      (effectiveRange offset count nRecords).2 ∧
    (effectiveRange offset count nRecords).2 ≤ (nRecords : Int) := by
  rcases offset with _ | o <;> rcases count with _ | c
  · simp only [effectiveRange]; omega
  · have hc := hcnt c rfl
    simp only [effectiveRange]
    by_cases h : c = 0 <;> simp [h] <;> omega
  · have ho := hoff o rfl
    simp only [effectiveRange]
    by_cases h : o = 0 <;> simp [h] <;> omega
  · have ho := hoff o rfl
    have hc := hcnt c rfl
    simp only [effectiveRange]
    by_cases h : o = 0 <;> by_cases h' : c = 0 <;> simp [h, h'] <;> omega

theorem C7_effectiveRange_witness :
    0 ≤ (effectiveRange (some 2) (some 1) 3).1 ∧
    (effectiveRange (some 2) (some 1) 3).1 ≤
      (effectiveRange (some 2) (some 1) 3).2 ∧
    (effectiveRange (some 2) (some 1) 3).2 ≤ (3 : Int) :=
  C7_effectiveRange_bounds (some 2) (some 1) 3
    (fun o ho => by injection ho with h; subst h; constructor <;> decide)
    (fun c hc => by injection hc with h; subst h; decide)

/-- Counterexample to claim C7 as stated ("for any offset and count
values"): with no offset, a configured count of `-1` and one data row,
`data.load` computes `startRecordNo = 0` and `endRecordNo = -1`, violating
`startRecordNo ≤ endRecordNo`. -/
theorem C7_counterexample :
    ¬ ((effectiveRange none (some (-1)) 1).1 ≤
        (effectiveRange none (some (-1)) 1).2) := by
  decide

theorem batchLoop_neg (callOk : Nat → Bool) (dryRun : Bool)
    (s e B : Nat) (hB : 0 < B) (k : Nat) (h : ¬ s + k * B < e) :
    batchLoop callOk dryRun s e B hB k = ⟨[], k, [], true⟩ := by
  rw [batchLoop]; simp [h]

theorem batchLoop_fail (callOk : Nat → Bool) (dryRun : Bool)
    (s e B : Nat) (hB : 0 < B) (k : Nat) (h : s + k * B < e)
    (hc : callOk k = false) :
    batchLoop callOk dryRun s e B hB k =
      ⟨[(k, s + k * B, min (s + (k + 1) * B) e)], k, [], false⟩ := by
  conv_lhs => rw [batchLoop]
  simp [h, hc]

theorem batchLoop_ok (callOk : Nat → Bool) (dryRun : Bool)
    (s e B : Nat) (hB : 0 < B) (k : Nat) (h : s + k * B < e)
    (hc : callOk k = true) :
    batchLoop callOk dryRun s e B hB k =
      { issued := (k, s + k * B, min (s + (k + 1) * B) e) ::
          (batchLoop callOk dryRun s e B hB (k + 1)).issued
        last := (batchLoop callOk dryRun s e B hB (k + 1)).last
        persisted :=
          if dryRun then (batchLoop callOk dryRun s e B hB (k + 1)).persisted
          else (k + 1) :: (batchLoop callOk dryRun s e B hB (k + 1)).persisted
        ok := (batchLoop callOk dryRun s e B hB (k + 1)).ok } := by
  conv_lhs => rw [batchLoop]
  simp [h, hc]

/-- Claim C5: for every `start`, `end`, positive `batchSize` and persisted
`lastBatch` counter, the batch loop issues its external call exactly over
the half-open ranges `[start + j*batchSize, min(start + (j+1)*batchSize, end))`
for the batch indices `j = lastBatch, lastBatch+1, ...` while
`start + j*batchSize < end` — so re-invoking the loop with a persisted
`lastBatch` issues calls only for batch indices `≥ lastBatch`, and
completed batches are never replayed.  First conjunct: every issued batch
has index `≥ lastBatch`, the claimed range, and is in range.  Second: when
every call succeeds, every in-range batch index `≥ lastBatch` is issued.
Third: the issued indices are consecutive, starting at `lastBatch`. -/
theorem C5_batchLoop_ranges (callOk : Nat → Bool) (dryRun : Bool)
    (s e B : Nat) (hB : 0 < B) (k : Nat) :
    (∀ j bs be, (j, bs, be) ∈ (batchLoop callOk dryRun s e B hB k).issued →
        k ≤ j ∧ bs = s + j * B ∧ be = min (s + (j + 1) * B) e ∧
          s + j * B < e) ∧
    ((∀ j, callOk j = true) → ∀ j, k ≤ j → s + j * B < e →
        (j, s + j * B, min (s + (j + 1) * B) e) ∈
          (batchLoop callOk dryRun s e B hB k).issued) ∧
    (batchLoop callOk dryRun s e B hB k).issued.map (fun t => t.1) =
      List.range' k (batchLoop callOk dryRun s e B hB k).issued.length := by
  induction k using batchLoop.induct callOk dryRun s e B hB with
  | case1 k h hc ih =>
    rw [batchLoop_ok callOk dryRun s e B hB k h hc]
    refine ⟨?_, ?_, ?_⟩
    · intro j bs be hj
      rcases List.mem_cons.mp hj with heq | hmem
      · simp only [Prod.mk.injEq] at heq
        obtain ⟨rfl, rfl, rfl⟩ := heq
        exact ⟨le_refl _, rfl, rfl, h⟩
      · obtain ⟨h1, h2⟩ := ih.1 j bs be hmem
        exact ⟨le_trans (Nat.le_succ k) h1, h2⟩
    · intro hall j hkj hje
      rcases Nat.eq_or_lt_of_le hkj with rfl | hlt
      · exact List.mem_cons_self _ _
      · exact List.mem_cons_of_mem _ (ih.2.1 hall j hlt hje)
    · simp only [List.map_cons, List.length_cons, List.range'_succ]
      exact congrArg (k :: ·) ih.2.2
  | case2 k h hc =>
    have hc' : callOk k = false := by simpa using hc
    rw [batchLoop_fail callOk dryRun s e B hB k h hc']
    refine ⟨?_, ?_, ?_⟩
    · intro j bs be hj
      simp only [List.mem_singleton, Prod.mk.injEq] at hj
      obtain ⟨rfl, rfl, rfl⟩ := hj
      exact ⟨le_refl _, rfl, rfl, h⟩
    · intro hall j hkj hje
      exact absurd hc' (by simp [hall k])
    · simp
  | case3 k h =>
    rw [batchLoop_neg callOk dryRun s e B hB k h]
    refine ⟨by simp, ?_, by simp⟩
    intro hall j hkj hje
    have : s + k * B ≤ s + j * B :=
      Nat.add_le_add_left (Nat.mul_le_mul_right B hkj) s
    omega

theorem C5_batchLoop_ranges_witness :
    (0, 0 + 0 * 100, min (0 + (0 + 1) * 100) 250) ∈
      (batchLoop (fun _ => true) false 0 250 100 (by decide) 0).issued ∧
    (1, 0 + 1 * 100, min (0 + (1 + 1) * 100) 250) ∈
      (batchLoop (fun _ => true) false 0 250 100 (by decide) 0).issued ∧
    (2, 0 + 2 * 100, min (0 + (2 + 1) * 100) 250) ∈
      (batchLoop (fun _ => true) false 0 250 100 (by decide) 0).issued :=
  ⟨(C5_batchLoop_ranges (fun _ => true) false 0 250 100 (by decide) 0).2.1
      (fun _ => rfl) 0 (by decide) (by decide),
   (C5_batchLoop_ranges (fun _ => true) false 0 250 100 (by decide) 0).2.1
      (fun _ => rfl) 1 (by decide) (by decide),
   (C5_batchLoop_ranges (fun _ => true) false 0 250 100 (by decide) 0).2.1
      (fun _ => rfl) 2 (by decide) (by decide)⟩

/-- Claim C6: in every batched operation's loop the `lastBatch` counter is
incremented — and, unless dry-run, persisted — only after the batched
external call returns success; on failure the error propagates with the
counter untouched.  Hence the counter never decreases (first conjunct),
every batch below the final counter value actually succeeded (second), the
persisted values are exactly the successive counter values after each
successful batch (third), and on failure the final counter equals the index
of the failing batch (fourth). -/
theorem C6_batchLoop_counter (callOk : Nat → Bool) (dryRun : Bool)
    (s e B : Nat) (hB : 0 < B) (k : Nat) :
    k ≤ (batchLoop callOk dryRun s e B hB k).last ∧
    (∀ i, k ≤ i → i < (batchLoop callOk dryRun s e B hB k).last →
        callOk i = true) ∧
    (batchLoop callOk dryRun s e B hB k).persisted =
      (if dryRun then []
       else List.range' (k + 1) ((batchLoop callOk dryRun s e B hB k).last - k)) ∧
    ((batchLoop callOk dryRun s e B hB k).ok = false →
        callOk (batchLoop callOk dryRun s e B hB k).last = false ∧
        s + (batchLoop callOk dryRun s e B hB k).last * B < e) := by
  induction k using batchLoop.induct callOk dryRun s e B hB with
  | case1 k h hc ih =>
    rw [batchLoop_ok callOk dryRun s e B hB k h hc]
    obtain ⟨ih1, ih2, ih3, ih4⟩ := ih
    refine ⟨le_trans (Nat.le_succ k) ih1, ?_, ?_, fun hok => ih4 hok⟩
    · intro i hki hilt
      rcases Nat.eq_or_lt_of_le hki with rfl | hlt
      · exact hc
      · exact ih2 i hlt hilt
    · rcases dryRun with _ | _
      · simp only [Bool.false_eq_true, if_false] at ih3 ⊢
        rw [ih3]
        have hlast : k + 1 ≤ (batchLoop callOk false s e B hB (k + 1)).last :=
          ih1
        have : (batchLoop callOk false s e B hB (k + 1)).last - k =
            ((batchLoop callOk false s e B hB (k + 1)).last - (k + 1)) + 1 := by
          omega
        rw [this, List.range'_succ]
      · simpa using ih3
  | case2 k h hc =>
    have hc' : callOk k = false := by simpa using hc
    rw [batchLoop_fail callOk dryRun s e B hB k h hc']
    refine ⟨le_refl _, ?_, by simp, fun _ => ⟨hc', h⟩⟩
    intro i hki hilt
    exact absurd hilt (by simp at hki ⊢; omega)
  | case3 k h =>
    rw [batchLoop_neg callOk dryRun s e B hB k h]
    exact ⟨le_refl _, fun i h1 h2 => absurd h2 (by simp; omega),
      by simp, by simp⟩

theorem C6_batchLoop_counter_witness :
    (batchLoop (fun b => b < 2) false 0 250 100 (by decide) 0).persisted =
      (if false then []
       else List.range' 1
         ((batchLoop (fun b => b < 2) false 0 250 100 (by decide) 0).last - 0)) :=
  (C6_batchLoop_counter (fun b => b < 2) false 0 250 100 (by decide) 0).2.2.1

theorem contextLoadEvents_shape (cfg : Cfg) (st : CpState) :
    ∀ ev ∈ contextLoadEvents cfg st,
      ev = .mkdir cpFolder ∨ ev = .fileRead cpClassFile ∨
      ev = .fileRead cpBatchFile ∨ ev = .copy cfg.csvFile cpDataFile ∨
      ev = .fileRead cpDataFile := by
  intro ev hev
  rcases st with ⟨f, cl, b, d⟩
  cases f <;> cases cl <;> cases b <;> cases d <;>
    simp_all [contextLoadEvents, getCheckpointRecordsEvents] <;> tauto

theorem createClassEvents_shape (c : StepChoices) :
    ∀ ev ∈ createClassEvents c,
      ev = .chainQuery ∨ ev = .prompt ∨ ev = .chainTx "uniques.create" ∨
      ev = .fileWrite cpClassFile := by
  intro ev hev
  cases hcn : c.classNeedsWork <;> cases hco : c.classOnChain <;>
    simp_all [createClassEvents] <;> tauto

theorem setClassMetadataEvents_shape (c : StepChoices) :
    ∀ ev ∈ setClassMetadataEvents c,
      ev = .pinFile ∨ ev = .fileWrite c.classMetaPath ∨
      ev = .chainTx "uniques.setClassMetadata" ∨
      ev = .fileWrite cpClassFile ∨ ev = .prompt := by
  intro ev hev
  cases hmm : c.classMetaMissing <;> cases hmc : c.classMetaConfigured <;>
    cases hvc : c.classVideoConfigured <;>
    simp_all [setClassMetadataEvents] <;> tauto

theorem generateGiftSecretsEvents_shape (c : StepChoices) :
    ∀ ev ∈ generateGiftSecretsEvents c, ev = .fileWrite cpDataFile := by
  intro ev hev
  cases hsu : c.secretsUpdated <;> simp_all [generateGiftSecretsEvents]

theorem mintInstancesEvents_shape (c : StepChoices) :
    ∀ ev ∈ mintInstancesEvents c,
      ev = .chainTx "uniques.mint" ∨ ev = .fileWrite cpBatchFile ∨
      ev = .fileWrite cpDataFile := by
  intro ev hev
  simp only [mintInstancesEvents, List.mem_append, List.mem_flatten,
    List.mem_map, List.mem_range, List.mem_singleton] at hev
  rcases hev with ⟨l, ⟨i, hi, hfl⟩, hl⟩ | h
  · subst hfl; simp at hl; tauto
  · tauto

theorem pinAndSetImageCidEvents_shape (c : StepChoices) :
    ∀ ev ∈ pinAndSetImageCidEvents c,
      ev = .pinFile ∨ (∃ p ∈ c.pinnedMetaPaths, ev = .fileWrite p) ∨
      ev = .fileWrite cpDataFile := by
  intro ev hev
  unfold pinAndSetImageCidEvents at hev
  split at hev
  · simp only [List.mem_append, List.mem_flatten, List.mem_map] at hev
    rcases hev with ⟨l, ⟨p, hp, hfl⟩, hl⟩ | h
    · subst hfl
      simp only [List.mem_cons, List.not_mem_nil, or_false] at hl
      rcases hl with rfl | rfl | rfl
      · exact Or.inl rfl
      · exact Or.inr (Or.inl ⟨p, hp, rfl⟩)
      · exact Or.inl rfl
    · split at h
      · simp at h
      · simp at h
        exact Or.inr (Or.inr h)
  · simp at hev

theorem setInstanceMetadataEvents_shape (c : StepChoices) :
    ∀ ev ∈ setInstanceMetadataEvents c,
      ev = .chainTx "uniques.setMetadata" ∨ ev = .fileWrite cpBatchFile := by
  intro ev hev
  unfold setInstanceMetadataEvents at hev
  split at hev
  · simp only [List.mem_flatten, List.mem_map, List.mem_range] at hev
    rcases hev with ⟨l, ⟨i, hi, hfl⟩, hl⟩
    subst hfl; simp at hl; tauto
  · simp at hev

theorem sendInitialFundsEvents_shape (cfg : Cfg) (c : StepChoices) :
    ∀ ev ∈ sendInitialFundsEvents cfg c,
      ev = .chainTx "balances.transfer" ∨ ev = .fileWrite cpBatchFile := by
  intro ev hev
  unfold sendInitialFundsEvents at hev
  split at hev
  · simp only [List.mem_flatten, List.mem_map, List.mem_range] at hev
    rcases hev with ⟨l, ⟨i, hi, hfl⟩, hl⟩
    subst hfl; simp at hl; tauto
  · simp at hev

theorem finalizeEvents_shape (cfg : Cfg) :
    ∀ ev ∈ finalizeEvents cfg,
      ev = .copy cpDataFile cfg.outputCsvFile ∨ ev = .fileDelete cpBatchFile ∨
      ev = .fileDelete cpDataFile ∨ ev = .fileDelete cpClassFile ∨
      ev = .fileDelete cpFolder := by
  intro ev hev
  simp [finalizeEvents] at hev
  tauto

theorem stepEvents_shape (cfg : Cfg) (c : StepChoices) :
    ∀ ev ∈ createClassEvents c ++ setClassMetadataEvents c ++
        generateGiftSecretsEvents c ++ mintInstancesEvents c ++
        pinAndSetImageCidEvents c ++ setInstanceMetadataEvents c ++
        sendInitialFundsEvents cfg c ++ finalizeEvents cfg,
      (∃ p ∈ c.pinnedMetaPaths, ev = .fileWrite p) ∨
      ev = .chainQuery ∨ ev = .prompt ∨ ev = .pinFile ∨
      ev = .chainTx "uniques.create" ∨
      ev = .chainTx "uniques.setClassMetadata" ∨
      ev = .chainTx "uniques.mint" ∨ ev = .chainTx "uniques.setMetadata" ∨
      ev = .chainTx "balances.transfer" ∨
      ev = .fileWrite cpClassFile ∨ ev = .fileWrite cpDataFile ∨
      ev = .fileWrite cpBatchFile ∨ ev = .fileWrite c.classMetaPath ∨
      ev = .copy cpDataFile cfg.outputCsvFile ∨
      ev = .fileDelete cpBatchFile ∨ ev = .fileDelete cpDataFile ∨
      ev = .fileDelete cpClassFile ∨ ev = .fileDelete cpFolder := by
  intro ev hev
  simp only [List.mem_append] at hev
  rcases hev with (((((((h|h)|h)|h)|h)|h)|h)|h)
  · rcases createClassEvents_shape c ev h with h'|h'|h'|h' <;> tauto
  · rcases setClassMetadataEvents_shape c ev h with h'|h'|h'|h'|h' <;> tauto
  · have h' := generateGiftSecretsEvents_shape c ev h; tauto
  · rcases mintInstancesEvents_shape c ev h with h'|h'|h' <;> tauto
  · rcases pinAndSetImageCidEvents_shape c ev h with h'|h'|h'
    · tauto
    · exact Or.inl h'
    · tauto
  · rcases setInstanceMetadataEvents_shape c ev h with h'|h' <;> tauto
  · rcases sendInitialFundsEvents_shape cfg c ev h with h'|h' <;> tauto
  · rcases finalizeEvents_shape cfg ev h with h'|h'|h'|h'|h' <;> tauto

theorem runWorkflowEvents_split (cfg : Cfg) (st : CpState) (c : StepChoices)
    (dryRunMode verifyOk : Bool) :
    ∀ ev ∈ runWorkflowEvents cfg st c dryRunMode verifyOk,
      ev ∈ contextLoadEvents cfg st ∨
      ev ∈ createClassEvents c ++ setClassMetadataEvents c ++
        generateGiftSecretsEvents c ++ mintInstancesEvents c ++
        pinAndSetImageCidEvents c ++ setInstanceMetadataEvents c ++
        sendInitialFundsEvents cfg c ++ finalizeEvents cfg := by
  intro ev hev
  simp only [runWorkflowEvents, List.mem_append] at hev
  rcases hev with h | h
  · exact Or.inl h
  · right
    cases verifyOk <;> cases dryRunMode <;> simp_all

/-- Claim C1 (amended): in dry-run mode the pipeline runs only the context
load and the preflight Validate phase and then terminates — no pipeline
step after Validate is invoked and no external mutating call is issued —
but it does not write *zero* checkpoint files: when no data checkpoint
exists yet, loading the context copies the configured source CSV into the
data checkpoint (the sole checkpoint write of a dry run). -/
theorem C1_dry_run_validate_only (cfg : Cfg) (st : CpState) (c : StepChoices)
    (verifyOk : Bool) :
    runWorkflowEvents cfg st c true verifyOk = contextLoadEvents cfg st ∧
    (∀ ev ∈ runWorkflowEvents cfg st c true verifyOk,
        ev.isMutatingExternal = false) ∧
    (runWorkflowEvents cfg st c true verifyOk).filter Effect.isCheckpointWrite
      = (if st.dataCpExists then [] else [.copy cfg.csvFile cpDataFile]) := by
  have htr : runWorkflowEvents cfg st c true verifyOk =
      contextLoadEvents cfg st := by
    cases verifyOk <;> simp [runWorkflowEvents]
  refine ⟨htr, ?_, ?_⟩
  · rw [htr]
    intro ev hev
    rcases contextLoadEvents_shape cfg st ev hev with rfl|rfl|rfl|rfl|rfl <;> rfl
  · rw [htr]
    rcases st with ⟨f, cl, b, d⟩
    cases f <;> cases cl <;> cases b <;> cases d <;>
      simp [contextLoadEvents, getCheckpointRecordsEvents,
        Effect.isCheckpointWrite, cpFolder, cpClassFile, cpDataFile, cpBatchFile]

/-- Counterexample to claim C1 as stated: on a fresh dry run (no checkpoint
exists yet) the pipeline does write a checkpoint file — the source CSV is
copied into the data checkpoint while the context loads. -/
theorem C1_counterexample :
    (runWorkflowEvents ⟨"data.csv", "out.csv", none⟩
        ⟨false, false, false, false⟩
        ⟨false, false, false, false, false, "", false, 0, false, [], 0, 0⟩
        true true).filter Effect.isCheckpointWrite ≠ [] := by
  decide

theorem modifies_fileWrite_ne (p q : String) (h : p ≠ q) :
    (Effect.fileWrite p).modifies q = false := by
  simp [Effect.modifies, h]

theorem modifies_fileDelete_ne (p q : String) (h : p ≠ q) :
    (Effect.fileDelete p).modifies q = false := by
  simp [Effect.modifies, h]

theorem modifies_copy_ne (s d q : String) (h : d ≠ q) :
    (Effect.copy s d).modifies q = false := by
  simp [Effect.modifies, h]

/-- Claim C9 (amended): for every *nonzero* configured initial-fund amount,
the preflight Validate phase fails exactly when the amount is below the
ledger's minimum-deposit floor — an amount equal to the floor is accepted —
and on failure the run aborts right after loading the context, before any
mutating external call of any pipeline step is issued.  (A configured
amount of zero is skipped by the `if (initialFund)` truthiness guard and
never checked, see the counterexample.) -/
theorem C9_verify_fund (cfg : Cfg) (st : CpState) (c : StepChoices)
    (existentialDeposit : Nat) (imagesOk dryRunMode : Bool) (n : Nat)
    (hf : cfg.initialFund = some n) (hn : n ≠ 0) :
    (n < existentialDeposit →
      verifyFundOk cfg.initialFund existentialDeposit = false ∧
      runWorkflowEventsFull cfg st c dryRunMode existentialDeposit imagesOk =
        contextLoadEvents cfg st ∧
      ∀ ev ∈ runWorkflowEventsFull cfg st c dryRunMode existentialDeposit
          imagesOk, ev.isMutatingExternal = false) ∧
    (existentialDeposit ≤ n →
      verifyFundOk cfg.initialFund existentialDeposit = true) := by
  constructor
  · intro hlt
    have hv : verifyFundOk cfg.initialFund existentialDeposit = false := by
      simp [verifyFundOk, hf, hn, hlt]
    have htr : runWorkflowEventsFull cfg st c dryRunMode existentialDeposit
        imagesOk = contextLoadEvents cfg st := by
      simp [runWorkflowEventsFull, runWorkflowEvents, hv]
    refine ⟨hv, htr, ?_⟩
    rw [htr]
    intro ev hev
    rcases contextLoadEvents_shape cfg st ev hev with rfl|rfl|rfl|rfl|rfl <;> rfl
  · intro hle
    simp [verifyFundOk, hf, hn]
    omega

theorem C9_verify_fund_witness :
    verifyFundOk (some 5) 7 = false ∧
    runWorkflowEventsFull ⟨"data.csv", "out.csv", some 5⟩
        ⟨false, false, false, false⟩
        ⟨false, false, false, false, false, "m.meta", false, 0, false, [], 0, 0⟩
        false 7 true =
      contextLoadEvents ⟨"data.csv", "out.csv", some 5⟩
        ⟨false, false, false, false⟩ :=
  ⟨((C9_verify_fund ⟨"data.csv", "out.csv", some 5⟩ ⟨false, false, false, false⟩
      ⟨false, false, false, false, false, "m.meta", false, 0, false, [], 0, 0⟩
      7 true false 5 rfl (by decide)).1 (by decide)).1,
   ((C9_verify_fund ⟨"data.csv", "out.csv", some 5⟩ ⟨false, false, false, false⟩
      ⟨false, false, false, false, false, "m.meta", false, 0, false, [], 0, 0⟩
      7 true false 5 rfl (by decide)).1 (by decide)).2.1⟩

/-- Counterexample to claim C9 as stated ("for every configured
initial-fund amount"): a configured amount of `0` with a minimum-deposit
floor of `1` is below the floor, yet the fund check passes — the source
guards the check with `if (initialFund)`, and `0` is falsy. -/
theorem C9_counterexample :
    verifyFundOk (some 0) 1 = true ∧ (0 : Nat) < 1 := by
  decide

/-- Claim C10: the configured source CSV file is never modified by a run.
Provided the configured paths are non-degenerate (the source CSV is not
itself one of the fixed checkpoint paths, the configured output path, or a
generated `.meta` path): every effect of the run leaves the source file
unmodified; the source is copied into the data checkpoint exactly when no
data checkpoint exists yet; every file read targets a checkpoint file
(all subsequent reads are of the checkpoint copy); and a completed
non-dry-run pass produces the final result by copying the data checkpoint
to the configured output path. -/
theorem C10_source_csv_never_modified (cfg : Cfg) (st : CpState)
    (c : StepChoices) (existentialDeposit : Nat) (imagesOk dryRunMode : Bool)
    (h1 : cfg.csvFile ≠ cpClassFile) (h2 : cfg.csvFile ≠ cpDataFile)
    (h3 : cfg.csvFile ≠ cpBatchFile) (h4 : cfg.csvFile ≠ cpFolder)
    (h5 : cfg.csvFile ≠ cfg.outputCsvFile)
    (h6 : cfg.csvFile ∉ c.pinnedMetaPaths)
    (h7 : cfg.csvFile ≠ c.classMetaPath)
    (h8 : cfg.outputCsvFile ≠ cpDataFile) :
    (∀ ev ∈ runWorkflowEventsFull cfg st c dryRunMode existentialDeposit
        imagesOk, ev.modifies cfg.csvFile = false) ∧
    (st.dataCpExists = false →
      Effect.copy cfg.csvFile cpDataFile ∈
        runWorkflowEventsFull cfg st c dryRunMode existentialDeposit imagesOk) ∧
    (st.dataCpExists = true → ∀ src,
      Effect.copy src cpDataFile ∉
        runWorkflowEventsFull cfg st c dryRunMode existentialDeposit imagesOk) ∧
    (∀ p, Effect.fileRead p ∈
        runWorkflowEventsFull cfg st c dryRunMode existentialDeposit imagesOk →
      p = cpClassFile ∨ p = cpBatchFile ∨ p = cpDataFile) ∧
    (dryRunMode = false →
      (verifyFundOk cfg.initialFund existentialDeposit && imagesOk) = true →
      Effect.copy cpDataFile cfg.outputCsvFile ∈
        runWorkflowEventsFull cfg st c dryRunMode existentialDeposit imagesOk) := by
  refine ⟨?_, ?_, ?_, ?_, ?_⟩
  · intro ev hev
    simp only [runWorkflowEventsFull] at hev
    rcases runWorkflowEvents_split cfg st c dryRunMode _ ev hev with h | h
    · rcases contextLoadEvents_shape cfg st ev h with rfl|rfl|rfl|rfl|rfl
      · rfl
      · rfl
      · rfl
      · exact modifies_copy_ne _ _ _ (Ne.symm h2)
      · rfl
    · rcases stepEvents_shape cfg c ev h with
        h'|rfl|rfl|rfl|rfl|rfl|rfl|rfl|rfl|rfl|rfl|rfl|rfl|rfl|rfl|rfl|rfl|rfl
      · obtain ⟨p, hp, rfl⟩ := h'
        exact modifies_fileWrite_ne _ _ fun he => h6 (he ▸ hp)
      · rfl
      · rfl
      · rfl
      · rfl
      · rfl
      · rfl
      · rfl
      · rfl
      · exact modifies_fileWrite_ne _ _ (Ne.symm h1)
      · exact modifies_fileWrite_ne _ _ (Ne.symm h2)
      · exact modifies_fileWrite_ne _ _ (Ne.symm h3)
      · exact modifies_fileWrite_ne _ _ (Ne.symm h7)
      · exact modifies_copy_ne _ _ _ (Ne.symm h5)
      · exact modifies_fileDelete_ne _ _ (Ne.symm h3)
      · exact modifies_fileDelete_ne _ _ (Ne.symm h2)
      · exact modifies_fileDelete_ne _ _ (Ne.symm h1)
      · exact modifies_fileDelete_ne _ _ (Ne.symm h4)
  · intro hd
    simp only [runWorkflowEventsFull, runWorkflowEvents, List.mem_append]
    left
    simp [contextLoadEvents, hd]
  · intro hd src hmem
    simp only [runWorkflowEventsFull, runWorkflowEvents, List.mem_append] at hmem
    rcases hmem with h | h
    · rcases st with ⟨f, cl, b, d⟩
      simp only at hd
      subst hd
      cases f <;> cases cl <;> cases b <;>
        simp_all [contextLoadEvents, getCheckpointRecordsEvents]
    · split at h
      · simp at h
      · split at h
        · simp at h
        · have hs := stepEvents_shape cfg c _ h
          simp at hs
          exact h8 hs.2.symm
  · intro p hp
    simp only [runWorkflowEventsFull] at hp
    rcases runWorkflowEvents_split cfg st c dryRunMode _ _ hp with h | h
    · have hsh := contextLoadEvents_shape cfg st _ h
      simp at hsh
      tauto
    · have hsh := stepEvents_shape cfg c _ h
      simp at hsh
  · intro hdm hok
    simp only [runWorkflowEventsFull, runWorkflowEvents, hok, hdm,
      List.mem_append]
    right
    simp [finalizeEvents]

theorem C10_source_csv_never_modified_witness :
    Effect.copy "data.csv" cpDataFile ∈
      runWorkflowEventsFull ⟨"data.csv", "out.csv", none⟩
        ⟨false, false, false, false⟩
        ⟨false, false, false, false, false, "m.meta", false, 0, false, [], 0, 0⟩
        false 0 true :=
  (C10_source_csv_never_modified ⟨"data.csv", "out.csv", none⟩
    ⟨false, false, false, false⟩
    ⟨false, false, false, false, false, "m.meta", false, 0, false, [], 0, 0⟩
    0 true false (by decide) (by decide) (by decide) (by decide) (by decide)
    (by decide) (by decide) (by decide)).2.1 rfl

theorem jsArraySet_getD (l : List JsVal) (i : Nat) (v : JsVal) :
    (jsArraySet l i v).getD i .undef = v := by
  unfold jsArraySet
  split
  · rename_i h
    rw [List.getD_eq_getElem _ _ (by simpa using h)]
    exact List.getElem_set_self _
  · rename_i h
    push_neg at h
    have hlen : i <
        (l ++ List.replicate (i - l.length) JsVal.undef ++ [v]).length := by
      simp; omega
    rw [List.getD_eq_getElem _ _ hlen]
    rw [List.getElem_append_right (by simp; omega)]
    simp

theorem idcells_append_str (s e L : Nat) (h : ¬ (s ≤ L ∧ L < e)) :
    ((List.range L).map fun p =>
        if s ≤ p ∧ p < e then JsVal.num (p - s : Nat) else .str "") ++ [JsVal.str ""] =
      (List.range (L + 1)).map fun p =>
        if s ≤ p ∧ p < e then JsVal.num (p - s : Nat) else .str "" := by
  rw [List.range_succ, List.map_append]
  simp [h]

theorem idcells_append_num (s e L : Nat) (hs : s ≤ L) (he : L < e) :
    jsArraySet ((List.range L).map fun p =>
        if s ≤ p ∧ p < e then JsVal.num (p - s : Nat) else .str "") L (.num (L - s : Nat)) =
      (List.range (L + 1)).map fun p =>
        if s ≤ p ∧ p < e then JsVal.num (p - s : Nat) else .str "" := by
  unfold jsArraySet
  simp only [List.length_map, List.length_range, lt_irrefl, if_false,
    Nat.sub_self, List.replicate_zero, List.nil_append]
  rw [List.range_succ, List.map_append]
  simp [hs, he]

theorem instanceId_fold (s e m : Nat) :
    (List.range m).foldl (instanceIdStep s e) ([], 0) =
      ((List.range (if 0 < m ∧ s ≤ m - 1 ∧ m - 1 < e then m else m - 1)).map
          fun p => if s ≤ p ∧ p < e then JsVal.num (p - s : Nat) else .str "",
        min m e - s) := by
  induction m with
  | zero => simp
  | succ m ih =>
    rw [List.range_succ, List.foldl_append, ih]
    simp only [List.foldl_cons, List.foldl_nil]
    rcases Nat.eq_zero_or_pos m with rfl | hmpos
    · by_cases hw : s ≤ 0 ∧ 0 < e
      · rw [if_neg (show ¬ (0 < 0 ∧ s ≤ 0 - 1 ∧ 0 - 1 < e) by omega),
          if_pos (show 0 < 0 + 1 ∧ s ≤ 0 + 1 - 1 ∧ 0 + 1 - 1 < e by omega)]
        simp only [instanceIdStep, List.length_map, List.length_range,
          gt_iff_lt, Nat.zero_sub]
        rw [if_neg (show ¬ ((0 : Nat) < 0) by omega),
          if_pos (show s ≤ 0 ∧ 0 < e from hw)]
        simp only [Prod.mk.injEq]
        refine ⟨?_, by omega⟩
        have hs0 : s = 0 := by omega
        subst hs0
        rw [show min 0 e - 0 = (0 : Nat) - 0 by omega]
        exact idcells_append_num 0 e 0 (le_refl 0) (by omega)
      · rw [if_neg (show ¬ (0 < 0 ∧ s ≤ 0 - 1 ∧ 0 - 1 < e) by omega),
          if_neg (show ¬ (0 < 0 + 1 ∧ s ≤ 0 + 1 - 1 ∧ 0 + 1 - 1 < e) by omega)]
        simp only [instanceIdStep, List.length_map, List.length_range,
          gt_iff_lt, Nat.zero_sub, Nat.add_sub_cancel]
        rw [if_neg (show ¬ ((0 : Nat) < 0) by omega),
          if_neg (show ¬ (s ≤ 0 ∧ 0 < e) from hw)]
        simp only [Prod.mk.injEq]
        exact ⟨trivial, by omega⟩
    · have hm1 : m - 1 + 1 = m := Nat.succ_pred_eq_of_pos hmpos
      by_cases hw : s ≤ m ∧ m < e
      · obtain ⟨hs, he⟩ := hw
        rw [if_pos (show 0 < m + 1 ∧ s ≤ m + 1 - 1 ∧ m + 1 - 1 < e by omega)]
        by_cases hprev : 0 < m ∧ s ≤ m - 1 ∧ m - 1 < e
        · rw [if_pos hprev]
          simp only [instanceIdStep, List.length_map, List.length_range,
            gt_iff_lt]
          rw [if_neg (show ¬ (m < m) by omega),
            if_pos (show s ≤ m ∧ m < e from ⟨hs, he⟩)]
          simp only [Prod.mk.injEq]
          refine ⟨?_, by omega⟩
          rw [show min m e - s = m - s by omega]
          exact idcells_append_num s e m hs he
        · rw [if_neg hprev]
          simp only [instanceIdStep, List.length_map, List.length_range,
            gt_iff_lt]
          rw [if_pos (show m - 1 < m by omega),
            if_pos (show s ≤ m ∧ m < e from ⟨hs, he⟩)]
          simp only [Prod.mk.injEq]
          refine ⟨?_, by omega⟩
          rw [idcells_append_str s e (m - 1) (by omega), hm1]
          rw [show min m e - s = m - s by omega]
          exact idcells_append_num s e m hs he
      · rw [if_neg (show ¬ (0 < m + 1 ∧ s ≤ m + 1 - 1 ∧ m + 1 - 1 < e) by
          omega)]
        by_cases hprev : 0 < m ∧ s ≤ m - 1 ∧ m - 1 < e
        · rw [if_pos hprev]
          simp only [instanceIdStep, List.length_map, List.length_range,
            gt_iff_lt, Nat.add_sub_cancel]
          rw [if_neg (show ¬ (m < m) by omega),
            if_neg (show ¬ (s ≤ m ∧ m < e) from hw)]
          simp only [Prod.mk.injEq]
          exact ⟨trivial, by omega⟩
        · rw [if_neg hprev]
          simp only [instanceIdStep, List.length_map, List.length_range,
            gt_iff_lt, Nat.add_sub_cancel]
          rw [if_pos (show m - 1 < m by omega),
            if_neg (show ¬ (s ≤ m ∧ m < e) from hw)]
          simp only [Prod.mk.injEq]
          refine ⟨?_, by omega⟩
          rw [idcells_append_str s e (m - 1) (by omega), hm1]

theorem buildInstanceIdColumn_records (n s e : Nat) (he : e ≤ n) :
    (buildInstanceIdColumn n s e).records =
      (List.range n).map
        fun p => if s ≤ p ∧ p < e then JsVal.num (p - s : Nat) else .str "" := by
  unfold buildInstanceIdColumn
  rw [instanceId_fold]
  simp only
  rw [if_neg (show ¬ (0 < n + 1 ∧ s ≤ n + 1 - 1 ∧ n + 1 - 1 < e) by omega)]
  simp only [Nat.add_sub_cancel]

theorem getD_map_range {α : Type} (n i : Nat) (f : Nat → α) (d : α)
    (h : i < n) : ((List.range n).map f).getD i d = f i := by
  rw [List.getD_eq_getElem _ _ (by simpa using h)]
  simp

/-- Claim C8: after all mint batches complete, `mintInstancesInBatch`
assigns a sequential instance id to every row with index in
`[startRecordNo, endRecordNo)`, starting at `0` and strictly increasing
with the row index (row `startRecordNo + k` receives id `k`), and then
checkpoints the table (`context.dryRun` is never set on this path). -/
theorem C8_assignInstanceIds (t : Table) (s e : Nat)
    (hse : s ≤ e) (hen : e ≤ t.records.length) :
    ∃ t', assignInstanceIds t s e false = .ok (t', true) ∧
      t'.records.length = t.records.length ∧
      ∀ k, k < e - s →
        (t'.records.getD (s + k) []).getD
          ((t.header.indexOf? instanceIdTitle).getD t.header.length) .undef =
          .num k := by
  have hcol := buildInstanceIdColumn_records t.records.length s e hen
  have hcollen : (buildInstanceIdColumn t.records.length s e).records.length =
      t.records.length := by
    rw [hcol]; simp
  have hcell : ∀ k, k < e - s →
      (buildInstanceIdColumn t.records.length s e).records.getD (s + k) .undef =
        .num k := by
    intro k hk
    rw [hcol, getD_map_range _ _ _ _ (by omega)]
    rw [if_pos (by omega)]
    congr 1
    omega
  have hres : ∀ idx,
      (writeColumns t.records [idx]
          [buildInstanceIdColumn t.records.length s e]).length
        = t.records.length ∧
      ∀ k, k < e - s →
        ((writeColumns t.records [idx]
            [buildInstanceIdColumn t.records.length s e]).getD (s + k) []).getD
          idx .undef = .num k := by
    intro idx
    constructor
    · simp [writeColumns]
    · intro k hk
      have hlt : s + k < t.records.length := by omega
      unfold writeColumns
      rw [getD_map_range _ _ _ _ hlt]
      simp only [List.zip_cons_cons, List.zip_nil_right, List.foldl_cons,
        List.foldl_nil]
      rw [jsArraySet_getD]
      exact hcell k hk
  have htitle : (buildInstanceIdColumn t.records.length s e).title =
      instanceIdTitle := rfl
  unfold assignInstanceIds setColumns
  rcases hidx : t.header.indexOf? instanceIdTitle with _ | i
  · simp only [resolveColumnIdxs, hcollen, ne_eq, not_true_eq_false, if_false,
      htitle, hidx]
    refine ⟨_, rfl, (hres t.header.length).1, ?_⟩
    intro k hk
    simpa using (hres t.header.length).2 k hk
  · simp only [resolveColumnIdxs, hcollen, ne_eq, not_true_eq_false, if_false,
      htitle, hidx]
    refine ⟨_, rfl, (hres i).1, ?_⟩
    intro k hk
    simpa using (hres i).2 k hk

theorem C8_assignInstanceIds_witness :
    assignInstanceIds ⟨["name"], [[.str "a"], [.str "b"], [.str "c"]]⟩ 1 3 false
      = .ok (⟨["name", "instanceId"],
          [[.str "a", .str ""], [.str "b", .num 0], [.str "c", .num 1]]⟩,
        true) := by
  obtain ⟨t', ht, hlen, hcells⟩ := C8_assignInstanceIds
    ⟨["name"], [[.str "a"], [.str "b"], [.str "c"]]⟩ 1 3 (by decide) (by decide)
  exact rfl

theorem joinWith_single (sep : Char) (f : Field) : joinWith sep [f] = f := rfl

theorem joinWith_cons_cons (sep : Char) (f g : Field) (t : List Field) :
    joinWith sep (f :: g :: t) = f ++ sep :: joinWith sep (g :: t) := rfl

theorem not_special_of_not_needsQuoting {f : Field}
    (h : fieldNeedsQuoting f = false) :
    ∀ c ∈ f, ¬ c = ',' ∧ ¬ c = '\n' ∧ ¬ c = '"' := by
  intro c hc
  have hch := List.any_eq_false.mp h c hc
  simp at hch
  tauto

theorem normalizeCsvField_plain {f : Field} (h : fieldNeedsQuoting f = false) :
    normalizeCsvField f = f := by
  unfold normalizeCsvField
  rw [h]
  simp

theorem normalizeCsvField_ne_nil {f : Field} (h : f ≠ []) :
    normalizeCsvField f ≠ [] := by
  unfold normalizeCsvField
  split
  · simp
  · exact h

theorem serializeRow_ne_nil {r : List Field} (h0 : r ≠ []) (h1 : r ≠ [[]]) :
    serializeRow r ≠ [] := by
  match r with
  | [] => exact absurd rfl h0
  | [f] =>
    have hf : f ≠ [] := by
      intro hf; exact h1 (by rw [hf])
    unfold serializeRow
    simpa [joinWith_single] using normalizeCsvField_ne_nil hf
  | f :: g :: t =>
    unfold serializeRow
    simp only [List.map_cons, joinWith_cons_cons]
    intro hcontra
    cases hnf : normalizeCsvField f <;> simp [hnf] at hcontra

theorem runCsv_start_step (c : Char) (s : List Char) (cur : Field)
    (fields : List Field) (rows : List (List Field)) :
    runCsv (c :: s) .start cur fields rows =
      (if c = '\n' then runCsv s .start [] [] rows
       else if c = ',' then runCsv s .field [] (fields ++ [cur]) rows
       else if c = '"' then runCsv s .quoted cur fields rows
       else runCsv s .unquoted (cur ++ [c]) fields rows) := rfl

theorem runCsv_field_step (c : Char) (s : List Char) (cur : Field)
    (fields : List Field) (rows : List (List Field)) :
    runCsv (c :: s) .field cur fields rows =
      (if c = '\n' then runCsv s .start [] [] (rows ++ [fields ++ [cur]])
       else if c = ',' then runCsv s .field [] (fields ++ [cur]) rows
       else if c = '"' then runCsv s .quoted cur fields rows
       else runCsv s .unquoted (cur ++ [c]) fields rows) := rfl

theorem runCsv_unquoted_step (c : Char) (s : List Char) (cur : Field)
    (fields : List Field) (rows : List (List Field)) :
    runCsv (c :: s) .unquoted cur fields rows =
      (if c = '\n' then runCsv s .start [] [] (rows ++ [fields ++ [cur]])
       else if c = ',' then runCsv s .field [] (fields ++ [cur]) rows
       else if c = '"' then none
       else runCsv s .unquoted (cur ++ [c]) fields rows) := rfl

theorem runCsv_quoted_step (c : Char) (s : List Char) (cur : Field)
    (fields : List Field) (rows : List (List Field)) :
    runCsv (c :: s) .quoted cur fields rows =
      (if c = '"' then runCsv s .closed cur fields rows
       else runCsv s .quoted (cur ++ [c]) fields rows) := rfl

theorem runCsv_closed_step (c : Char) (s : List Char) (cur : Field)
    (fields : List Field) (rows : List (List Field)) :
    runCsv (c :: s) .closed cur fields rows =
      (if c = '"' then runCsv s .quoted (cur ++ ['"']) fields rows
       else if c = ',' then runCsv s .field [] (fields ++ [cur]) rows
       else if c = '\n' then runCsv s .start [] [] (rows ++ [fields ++ [cur]])
       else none) := rfl

theorem runCsv_quoted_content (f : Field) :
    ∀ (cur : Field) (rest : List Char) (fields : List Field)
      (rows : List (List Field)),
      runCsv (escapeQuotes f ++ '"' :: rest) .quoted cur fields rows =
        runCsv rest .closed (cur ++ f) fields rows := by
  induction f with
  | nil =>
    intro cur rest fields rows
    show runCsv ('"' :: rest) .quoted cur fields rows = _
    rw [runCsv_quoted_step]
    simp
  | cons c cs ih =>
    intro cur rest fields rows
    by_cases hc : c = '"'
    · subst hc
      show runCsv ('"' :: '"' :: (escapeQuotes cs ++ '"' :: rest)) .quoted
          cur fields rows = _
      rw [runCsv_quoted_step, if_pos rfl, runCsv_closed_step, if_pos rfl, ih,
        ← List.append_cons]
    · have hesc : escapeQuotes (c :: cs) = c :: escapeQuotes cs := by
        rw [escapeQuotes, if_neg hc]
      rw [hesc]
      show runCsv (c :: (escapeQuotes cs ++ '"' :: rest)) .quoted
          cur fields rows = _
      rw [runCsv_quoted_step, if_neg hc, ih, ← List.append_cons]

theorem runCsv_unquoted_content (f : Field)
    (hf : ∀ c ∈ f, ¬ c = ',' ∧ ¬ c = '\n' ∧ ¬ c = '"') :
    ∀ (cur : Field) (rest : List Char) (fields : List Field)
      (rows : List (List Field)),
      runCsv (f ++ rest) .unquoted cur fields rows =
        runCsv rest .unquoted (cur ++ f) fields rows := by
  induction f with
  | nil =>
    intro cur rest fields rows
    rw [List.nil_append, List.append_nil]
  | cons c cs ih =>
    intro cur rest fields rows
    obtain ⟨h1, h2, h3⟩ := hf c (by simp)
    show runCsv (c :: (cs ++ rest)) .unquoted cur fields rows = _
    rw [runCsv_unquoted_step, if_neg h2, if_neg h1, if_neg h3]
    rw [ih (fun d hd => hf d (by simp [hd])), ← List.append_cons]

theorem runCsv_after_field (f : Field) (fields : List Field)
    (rows : List (List Field)) :
    (∀ rest, runCsv (normalizeCsvField f ++ ',' :: rest) .field [] fields rows
        = runCsv rest .field [] (fields ++ [f]) rows) ∧
    (∀ rest, runCsv (normalizeCsvField f ++ '\n' :: rest) .field [] fields rows
        = runCsv rest .start [] [] (rows ++ [fields ++ [f]])) ∧
    (runCsv (normalizeCsvField f) .field [] fields rows =
        some (rows ++ [fields ++ [f]])) := by
  by_cases hq : fieldNeedsQuoting f
  · have key : ∀ X, runCsv (normalizeCsvField f ++ X) .field [] fields rows =
        runCsv X .closed f fields rows := by
      intro X
      unfold normalizeCsvField
      rw [if_pos hq]
      rw [List.cons_append, List.append_assoc, List.singleton_append]
      rw [runCsv_field_step]
      rw [if_neg (by decide), if_neg (by decide), if_pos rfl]
      rw [runCsv_quoted_content f [] X fields rows, List.nil_append]
    refine ⟨?_, ?_, ?_⟩
    · intro rest
      rw [key, runCsv_closed_step]
      rw [if_neg (by decide), if_pos rfl]
    · intro rest
      rw [key, runCsv_closed_step]
      rw [if_neg (by decide), if_neg (by decide), if_pos rfl]
    · have h := key []
      rw [List.append_nil] at h
      rw [h]
      rfl
  · have hq' : fieldNeedsQuoting f = false := by simpa using hq
    rw [normalizeCsvField_plain hq']
    cases f with
    | nil =>
      refine ⟨?_, ?_, ?_⟩
      · intro rest
        rw [List.nil_append, runCsv_field_step]
        rw [if_neg (by decide), if_pos rfl]
      · intro rest
        rw [List.nil_append, runCsv_field_step, if_pos rfl]
      · rfl
    | cons c cs =>
      have hchars := not_special_of_not_needsQuoting hq'
      obtain ⟨h1, h2, h3⟩ := hchars c (by simp)
      have hcs : ∀ d ∈ cs, ¬ d = ',' ∧ ¬ d = '\n' ∧ ¬ d = '"' :=
        fun d hd => hchars d (by simp [hd])
      have key : ∀ X, runCsv ((c :: cs) ++ X) .field [] fields rows =
          runCsv X .unquoted (c :: cs) fields rows := by
        intro X
        rw [List.cons_append, runCsv_field_step, if_neg h2, if_neg h1,
          if_neg h3]
        rw [List.nil_append, runCsv_unquoted_content cs hcs [c] X fields rows,
          List.singleton_append]
      refine ⟨?_, ?_, ?_⟩
      · intro rest
        rw [key, runCsv_unquoted_step, if_neg (by decide), if_pos rfl]
      · intro rest
        rw [key, runCsv_unquoted_step, if_pos rfl]
      · have h := key []
        rw [List.append_nil] at h
        rw [h]
        rfl

theorem runCsv_record (row : List Field) :
    ∀ (fields : List Field) (rows : List (List Field)), row ≠ [] →
      (∀ rest,
        runCsv (serializeRow row ++ '\n' :: rest) .field [] fields rows =
          runCsv rest .start [] [] (rows ++ [fields ++ row])) ∧
      (runCsv (serializeRow row) .field [] fields rows =
          some (rows ++ [fields ++ row])) := by
  induction row with
  | nil =>
    intro fields rows hne
    exact absurd rfl hne
  | cons f t ih =>
    intro fields rows _
    cases t with
    | nil =>
      have hser : serializeRow [f] = normalizeCsvField f := rfl
      constructor
      · intro rest
        rw [hser, (runCsv_after_field f fields rows).2.1 rest]
      · rw [hser, (runCsv_after_field f fields rows).2.2]
    | cons g t2 =>
      have hser : serializeRow (f :: g :: t2) =
          normalizeCsvField f ++ ',' :: serializeRow (g :: t2) := rfl
      have hassoc : (fields ++ [f]) ++ (g :: t2) = fields ++ (f :: g :: t2) := by
        simp
      constructor
      · intro rest
        rw [hser, List.append_assoc, List.cons_append]
        rw [(runCsv_after_field f fields rows).1
          (serializeRow (g :: t2) ++ '\n' :: rest)]
        rw [(ih (fields ++ [f]) rows (by simp)).1 rest, hassoc]
      · rw [hser]
        rw [(runCsv_after_field f fields rows).1 (serializeRow (g :: t2))]
        rw [(ih (fields ++ [f]) rows (by simp)).2, hassoc]

theorem runCsv_start_cons (c : Char) (hc : ¬ c = '\n') (s : List Char)
    (rows : List (List Field)) :
    runCsv (c :: s) .start [] [] rows = runCsv (c :: s) .field [] [] rows := by
  rw [runCsv_start_step, runCsv_field_step, if_neg hc, if_neg hc]

theorem serializeRow_head_ne_newline (row : List Field)
    (h : serializeRow row ≠ []) :
    ∃ c cs, serializeRow row = c :: cs ∧ ¬ c = '\n' := by
  cases row with
  | nil => exact absurd rfl h
  | cons f t =>
    rcases hnf : normalizeCsvField f with _ | ⟨c, cs⟩
    · cases t with
      | nil =>
        exact absurd (by rw [show serializeRow [f] = normalizeCsvField f
          from rfl, hnf]) h
      | cons g t2 =>
        refine ⟨',', serializeRow (g :: t2), ?_, by decide⟩
        rw [show serializeRow (f :: g :: t2) =
          normalizeCsvField f ++ ',' :: serializeRow (g :: t2) from rfl, hnf,
          List.nil_append]
    · have hcne : ¬ c = '\n' := by
        by_cases hq : fieldNeedsQuoting f
        · have hform : normalizeCsvField f = '"' :: (escapeQuotes f ++ ['"']) := by
            unfold normalizeCsvField; rw [if_pos hq]
          rw [hform] at hnf
          have hcq : c = '"' := by
            injection hnf with hhead _
            exact hhead.symm
          rw [hcq]; decide
        · have hq' : fieldNeedsQuoting f = false := by simpa using hq
          rw [normalizeCsvField_plain hq'] at hnf
          have hmem : c ∈ f := by rw [hnf]; simp
          exact (not_special_of_not_needsQuoting hq' c hmem).2.1
      cases t with
      | nil =>
        exact ⟨c, cs, by rw [show serializeRow [f] = normalizeCsvField f
          from rfl, hnf], hcne⟩
      | cons g t2 =>
        refine ⟨c, cs ++ ',' :: serializeRow (g :: t2), ?_, hcne⟩
        rw [show serializeRow (f :: g :: t2) =
          normalizeCsvField f ++ ',' :: serializeRow (g :: t2) from rfl, hnf,
          List.cons_append]

theorem runCsv_records (rs : List (List Field)) :
    ∀ acc, (∀ r ∈ rs, serializeRow r ≠ []) →
      runCsv (joinWith '\n' (rs.map serializeRow)) .start [] [] acc =
        some (acc ++ rs) := by
  induction rs with
  | nil =>
    intro acc _
    simp [joinWith, runCsv]
  | cons r rs2 ih =>
    intro acc hne
    have hr : serializeRow r ≠ [] := hne r (by simp)
    obtain ⟨c, cs, hshape, hcne⟩ := serializeRow_head_ne_newline r hr
    cases rs2 with
    | nil =>
      rw [List.map_cons, List.map_nil, joinWith_single]
      rw [hshape, runCsv_start_cons c hcne, ← hshape]
      have hr0 : r ≠ [] := by
        intro h0
        subst h0
        exact hr rfl
      rw [(runCsv_record r [] acc hr0).2]
      simp
    | cons r2 t =>
      rw [List.map_cons, List.map_cons, joinWith_cons_cons]
      rw [hshape, List.cons_append, runCsv_start_cons c hcne,
        ← List.cons_append, ← hshape]
      have hr0 : r ≠ [] := by
        intro h0
        subst h0
        exact hr rfl
      rw [(runCsv_record r [] acc hr0).1
        (joinWith '\n' (serializeRow r2 :: t.map serializeRow))]
      simp only [List.nil_append]
      rw [show serializeRow r2 :: t.map serializeRow =
        (r2 :: t).map serializeRow from rfl]
      rw [ih (acc ++ [r]) (fun q hq => hne q (by simp [hq]))]
      simp

theorem map_normalize_plain (header : List Field)
    (hq : ∀ f ∈ header, fieldNeedsQuoting f = false) :
    header.map normalizeCsvField = header := by
  induction header with
  | nil => rfl
  | cons f t ih =>
    rw [List.map_cons, normalizeCsvField_plain (hq f (by simp)),
      ih (fun g hg => hq g (by simp [hg]))]

theorem writeCsv_eq (header : List Field) (records : List (List Field))
    (hq : ∀ f ∈ header, fieldNeedsQuoting f = false) :
    writeCsv header records =
      joinWith '\n' ((header :: records).map serializeRow) := by
  unfold writeCsv
  simp only [List.map_cons]
  have hhead : joinWith ',' header = serializeRow header := by
    unfold serializeRow
    rw [map_normalize_plain header hq]
  rw [hhead, List.map_map]
  rfl

/-- Claim C2 (amended): `load(save(h,r)) = (h,r)` holds for all rows whose
field values may contain the separator, quote, or line-break characters —
those fields are quoted with internal quotes doubled on save — *provided*
the header's fields are plain (no separator, quote, or line-break
characters: the source writes the header verbatim, without any quoting),
the header line is nonempty, every row has exactly as many fields as the
header (`csv-parse` rejects inconsistent record lengths), and no row is a
single empty field (its line would be empty and dropped by
`skip_empty_lines`). -/
theorem C2_roundtrip (header : List Field) (records : List (List Field))
    (hplain : ∀ f ∈ header, f.all plainChar = true)
    (hh : joinWith ',' header ≠ [])
    (hlen : ∀ r ∈ records, r.length = header.length)
    (hone : ∀ r ∈ records, r ≠ [[]]) :
    readCsv (writeCsv header records) = some (header, records) := by
  have hq : ∀ f ∈ header, fieldNeedsQuoting f = false := by
    intro f hf
    unfold fieldNeedsQuoting
    rw [List.any_eq_false]
    intro c hc
    have hpc := List.all_eq_true.mp (hplain f hf) c hc
    unfold plainChar at hpc
    simp at hpc ⊢
    tauto
  have hhne : header ≠ [] := by
    intro he
    subst he
    exact hh rfl
  have hlen1 : 1 ≤ header.length := by
    cases header with
    | nil => exact absurd rfl hhne
    | cons a b => simp
  have hser : ∀ r ∈ (header :: records), serializeRow r ≠ [] := by
    intro r hr
    rcases List.mem_cons.mp hr with rfl | hmem
    · unfold serializeRow
      rw [map_normalize_plain r hq]
      exact hh
    · have h0 : r ≠ [] := by
        intro h0
        have hl := hlen r hmem
        rw [h0] at hl
        simp at hl
        omega
      exact serializeRow_ne_nil h0 (hone r hmem)
  have hparse : runCsv (writeCsv header records) .start [] [] [] =
      some (header :: records) := by
    rw [writeCsv_eq header records hq]
    rw [runCsv_records (header :: records) [] hser]
    simp
  have hall : records.all (fun r => r.length = header.length) = true := by
    rw [List.all_eq_true]
    intro r hr
    simpa using hlen r hr
  unfold readCsv parseCsv
  rw [hparse]
  simp [hall]
  exact hlen

theorem C2_roundtrip_witness :
    readCsv (writeCsv [['i', 'd'], ['m', 's', 'g']]
        [[['1'], ['h', 'i']], [['2'], ['a', ',', 'b', '"', 'c', '\n', 'd']]]) =
      some ([['i', 'd'], ['m', 's', 'g']],
        [[['1'], ['h', 'i']], [['2'], ['a', ',', 'b', '"', 'c', '\n', 'd']]]) :=
  C2_roundtrip [['i', 'd'], ['m', 's', 'g']]
    [[['1'], ['h', 'i']], [['2'], ['a', ',', 'b', '"', 'c', '\n', 'd']]]
    (by decide) (by decide) (by decide) (by decide)

/-- Counterexample to claim C2 as stated ("for every header ... whose field
values may contain the separator..."): a header whose single field is
`a,b` is written verbatim by `writeCsvSync` — header fields are never
quoted — so loading the saved file parses it back as the two fields `a`
and `b`. -/
theorem C2_counterexample :
    readCsv (writeCsv [['a', ',', 'b']] []) ≠
      some ([['a', ',', 'b']], []) := by
  decide

end CampaignRunner
